import Mathlib

/-!
Verification of the `externref` build-time metadata pipeline.

The development shallowly embeds the Rust sources:

* `src/crates/macros/src/args.rs` — option parsing (`ExternRefOptions`);
* `src/crates/macros/src/func.rs` — signature extraction (`FunctionData.parse`),
  marker-type detection (`type_is_extern_ref`), and data-section emission
  (`FunctionData.to_data_section_token_stream`);
* `src/crates/macros/src/lib.rs` — the per-declaration-site driver (`process_fn`).

Syntax-tree shapes (`syn` crate) are embedded only as deeply as the code
inspects them: a path keeps its leading-colon flag and its segment list so that
`Path::get_ident` is modelled faithfully.
-/

/-- One segment of a Rust path, as inspected by the code: its identifier and
whether it carries generic arguments (a segment with arguments has no bare
ident). -/
structure PathSegment where
  ident : String
  hasArguments : Bool
deriving DecidableEq

/-- A Rust path: leading-colon flag plus segments, the two features
`syn::Path::get_ident` looks at. -/
structure RPath where
  leadingColon : Bool
  segments : List PathSegment
deriving DecidableEq

/-- `syn::Path::get_ident`: the bare identifier of a path, present exactly when
the path has no leading colon and a single argument-free segment. -/
def RPath.getIdent (p : RPath) : Option String :=
  match p.leadingColon, p.segments with
  | false, [seg] => if seg.hasArguments then none else some seg.ident
  | _, _ => none

/-- A type as classified by `type_is_extern_ref`: a path type, or any other
shape of type (which the code never matches). -/
inductive RustType where
  | path (p : RPath)
  | other
deriving DecidableEq

/-- A function argument: a receiver (`self`) or a typed pattern. -/
inductive FnArg where
  | receiver
  | typed (ty : RustType)
deriving DecidableEq

/-- A return type: absent (`ReturnType::Default`) or a declared type. -/
inductive ReturnType where
  | default
  | retTy (ty : RustType)
deriving DecidableEq

/-- A function signature: its identifier, ordered inputs, and output,
the three fields of `syn::Signature` that `FunctionData::parse` reads. -/
structure Signature where
  ident : String
  inputs : List FnArg
  output : ReturnType
deriving DecidableEq

/-- `func.rs`: a type is an extern ref when it is a path type whose path has a
bare identifier equal to `ExternRef`. -/
def type_is_extern_ref (ty : RustType) : Bool :=
  match ty with
  | .path p =>
    match p.getIdent with
    | some i => i == "ExternRef"
    | none => false
  | .other => false

/-- A Rust literal, as classified by the option parser: a string literal or
any other literal kind. -/
inductive RustLit where
  | str (s : String)
  | other
deriving DecidableEq

/-- `syn::Meta`: a bare path, a list, or a name-value pair. -/
inductive RMeta where
  | path (p : RPath)
  | list (p : RPath)
  | nameValue (path : RPath) (lit : RustLit)
deriving DecidableEq

/-- `syn::NestedMeta`: a meta item or a bare literal. -/
inductive NestedMeta where
  | meta (m : RMeta)
  | lit (l : RustLit)
deriving DecidableEq

/-- `args.rs`: the options of the externref attribute. -/
structure ExternRefOptions where
  name : Option String
deriving DecidableEq

/-- The `Default` derive on `ExternRefOptions`. -/
def ExternRefOptions.default : ExternRefOptions := ⟨none⟩

/-- The loop body of `ExternRefOptions::parse`, with the mutable `options`
made an explicit accumulator.  Each meta must be a name-value pair whose path
has a bare identifier and whose value is a string literal; the only accepted
key is `name`, any other key fails naming the key. -/
def ExternRefOptions.parseFrom (options : ExternRefOptions) :
    List NestedMeta → Except String ExternRefOptions
  | [] => .ok options
  | m :: rest =>
    match m with
    | .meta (.nameValue p l) =>
      match p.getIdent with
      | none => .error ("invalid identifier for attribute arguments")
      | some nm =>
        match l with
        | .str v =>
          if nm = "name" then ExternRefOptions.parseFrom ⟨some v⟩ rest
          else .error ("Invalid option " ++ nm)
        | .other => .error ("Only string literals are valid for externref options")
    | _ => .error ("Only name value pairs are allowed in this proc-macro")

/-- `ExternRefOptions::parse`: fold the metas over the default options. -/
def ExternRefOptions.parse (metas : List NestedMeta) : Except String ExternRefOptions :=
  ExternRefOptions.parseFrom ExternRefOptions.default metas

/-- An attribute as inspected by `AttributesOrOptions::try_into`: its path and
the result of parsing its argument tokens as a comma-separated meta list
(`parse_args_with` can fail, hence `Except`). -/
structure Attribute where
  path : RPath
  args : Except String (List NestedMeta)

/-- The loop of `TryInto<ExternRefOptions> for AttributesOrOptions` over the
attribute list: the first attribute whose path ident is `externref` decides the
options; with no such attribute the default options are returned. -/
def findExternrefOpts : List Attribute → Except String ExternRefOptions
  | [] => .ok ExternRefOptions.default
  | attr :: rest =>
    match attr.path.getIdent with
    | some i =>
      if i = "externref" then
        match attr.args with
        | .ok list => ExternRefOptions.parse list
        | .error e => .error e
      else findExternrefOpts rest
    | none => findExternrefOpts rest

/-- `func.rs`: the two ways of supplying options to `FunctionData::parse`. -/
inductive AttributesOrOptions where
  | options (opts : ExternRefOptions)
  | attributes (attrs : List Attribute)

/-- `TryInto<ExternRefOptions> for AttributesOrOptions`. -/
def AttributesOrOptions.tryIntoOptions : AttributesOrOptions → Except String ExternRefOptions
  | .options opts => .ok opts
  | .attributes attrs => findExternrefOpts attrs

/-- `func.rs`: the data extracted from a function signature. -/
structure FunctionData where
  name : String
  arg_indicies : List Nat
  ret_is_extern_ref : Bool
deriving DecidableEq

/-- The closure passed to `filter_map` in `FunctionData::parse`: keep the
index of an enumerated argument exactly when it is a typed argument whose type
is an extern ref. -/
def markedArgFilter : Nat × FnArg → Option Nat
  | (i, FnArg.typed ty) => if type_is_extern_ref ty then some i else none
  | _ => none

/-- `FunctionData::parse`: resolve the options, then take the name from the
option override or the signature ident, collect the indices of typed arguments
whose type is an extern ref, and test the return type. -/
def FunctionData.parse (sig : Signature) (attrs_or_opts : AttributesOrOptions) :
    Except String FunctionData := do
  let opts ← attrs_or_opts.tryIntoOptions
  let name := opts.name.getD sig.ident
  let arg_indicies := sig.inputs.enum.filterMap markedArgFilter
  .ok { name := name, arg_indicies := arg_indicies,
        ret_is_extern_ref :=
          match sig.output with
          | .retTy t => type_is_extern_ref t
          | .default => false }

/-! ## The metadata emitter

`to_data_section_token_stream` serializes the record with `serde_json::to_vec`.
The derived `Serialize` impl (with the `camelCase` rename) writes the three
fields in declaration order as `name`, `argIndicies`, `retIsExternRef`; string
values use the standard `serde_json` escaping (quote, backslash, and control
characters), array values are comma-separated decimal integers.  That external
serializer is embedded here at the character level. -/

/-- Decimal digit character for a value below ten. -/
def digitChar (n : Nat) : Char := Char.ofNat (48 + n)

/-- Lowercase hexadecimal digit character, as in the serializer's hex table. -/
def hexChar (n : Nat) : Char :=
  if n < 10 then Char.ofNat (48 + n) else Char.ofNat (87 + n)

/-- `serde_json` escaping of one character inside a string value: quote and
backslash are backslash-escaped, the named control characters get short
escapes, the remaining control characters get a `\u00xx` escape, and every
other character passes through. -/
def escapeChar (c : Char) : List Char :=
  if c = '"' then ['\\', '"']
  else if c = '\\' then ['\\', '\\']
  else if c.toNat = 8 then ['\\', 'b']
  else if c.toNat = 9 then ['\\', 't']
  else if c.toNat = 10 then ['\\', 'n']
  else if c.toNat = 12 then ['\\', 'f']
  else if c.toNat = 13 then ['\\', 'r']
  else if c.toNat < 32 then ['\\', 'u', '0', '0', hexChar (c.toNat / 16), hexChar (c.toNat % 16)]
  else [c]

/-- Escape every character of a string body. -/
def escapeChars : List Char → List Char
  | [] => []
  | c :: rest => escapeChar c ++ escapeChars rest

/-- Decimal rendering worker, structurally recursive on a fuel bound so that
it reduces inside the kernel; the fuel only needs to exceed the number. -/
def natToDecAux : Nat → Nat → List Char
  | 0, _ => []
  | fuel + 1, n =>
    if n < 10 then [digitChar n]
    else natToDecAux fuel (n / 10) ++ [digitChar (n % 10)]

/-- Decimal rendering of a natural number, most significant digit first. -/
def natToDec (n : Nat) : List Char := natToDecAux (n + 1) n

/-- Comma-separated decimal rendering of a JSON integer-array body. -/
def natListChars : List Nat → List Char
  | [] => []
  | [n] => natToDec n
  | n :: rest => natToDec n ++ ',' :: natListChars rest

/-- The character stream of `serde_json::to_vec` on a `FunctionData` value. -/
def serializeChars (fd : FunctionData) : List Char :=
  "\x7b\"name\":\"".data ++
    (escapeChars fd.name.data ++
      ("\",\"argIndicies\":[".data ++
        (natListChars fd.arg_indicies ++
          ("],\"retIsExternRef\":".data ++
            ((if fd.ret_is_extern_ref then ("true".data) else ("false".data)) ++
              "\x7d".data)))))

/-- The serialized JSON payload as a string. -/
def serializeFunctionData (fd : FunctionData) : String :=
  ⟨serializeChars fd⟩

/-- UTF-8 byte length of a character list: the length of the byte vector the
serializer returns. -/
def utf8Len (l : List Char) : Nat :=
  (l.map Char.utf8Size).sum

/-- The emission artifact of `to_data_section_token_stream`: the generated
static is named `identifier`, is placed in a link section of the same name,
and holds `length` bytes of `payload`. -/
structure NamedDataBlock where
  identifier : String
  payload : List Char
  length : Nat
deriving DecidableEq

/-- The `fn_name` computation of `to_data_section_token_stream`: the data
section name, keyed by the optional module (group) and the function name. -/
def sectionName (module : Option String) (name : String) : String :=
  match module with
  | some m => "__extern_ref_data_" ++ m ++ "_" ++ name
  | none => "__extern_ref_data_" ++ name

/-- `FunctionData::to_data_section_token_stream`: build the section name from
the optional module and the metadata name, serialize the record to JSON bytes,
and emit the named fixed-length static holding those bytes. -/
def FunctionData.to_data_section_token_stream (fd : FunctionData) (module : Option String) :
    NamedDataBlock :=
  let fn_name := sectionName module fd.name
  let bytes := serializeChars fd
  { identifier := fn_name, payload := bytes, length := utf8Len bytes }

/-- `lib.rs` `process_fn` core: parse the function data from the signature and
the already-resolved options, then emit its data section. -/
def process_fn (sig : Signature) (opts : ExternRefOptions) : Except String NamedDataBlock := do
  let fd ← FunctionData.parse sig (.options opts)
  .ok (fd.to_data_section_token_stream none)

/-- The `externref` macro entry for a plain function: parse the attribute
arguments into options, then run `process_fn`.  A parse failure aborts the
expansion, so no data block is produced. -/
def externref_entry (args : List NestedMeta) (sig : Signature) :
    Except String NamedDataBlock := do
  let opts ← ExternRefOptions.parse args
  process_fn sig opts

/-! ## Claim C9: deterministic serialization and round-trip

Modelled from the spec: the downstream decoder of the wire format is not part
of this crate (the derived `Deserialize` impl and the external rewriter are
out of scope for src/), so a decoder for the canonical payloads emitted by the
serializer is modelled here from the spec's wire-format section: a structured
JSON object with fields `name`, `argIndicies`, `retIsExternRef`. -/

/-- Consume an expected literal chunk from the front of the input. -/
def dropPrefixChars : List Char → List Char → Option (List Char)
  | [], l => some l
  | _ :: _, [] => none
  | p :: ps, c :: cs => if c = p then dropPrefixChars ps cs else none

/-- Value of a hexadecimal digit character. -/
def hexVal (c : Char) : Option Nat :=
  if 48 ≤ c.toNat ∧ c.toNat ≤ 57 then some (c.toNat - 48)
  else if 97 ≤ c.toNat ∧ c.toNat ≤ 102 then some (c.toNat - 87)
  else none

/-- Value of a decimal digit character. -/
def digitVal (c : Char) : Option Nat :=
  match hexVal c with
  | some d => if d < 10 then some d else none
  | none => none

/-- Decode one short string escape. -/
def unescapeChar (e : Char) : Option Char :=
  if e = '"' then some '"'
  else if e = '\\' then some '\\'
  else if e = 'b' then some (Char.ofNat 8)
  else if e = 't' then some (Char.ofNat 9)
  else if e = 'n' then some (Char.ofNat 10)
  else if e = 'f' then some (Char.ofNat 12)
  else if e = 'r' then some (Char.ofNat 13)
  else none

/-- Decode a JSON string body up to its closing quote, returning the decoded
characters and the remaining input. -/
def parseStringBody : List Char → Option (List Char × List Char)
  | [] => none
  | c :: rest =>
    if c = '"' then some ([], rest)
    else if c = '\\' then
      match rest with
      | [] => none
      | e :: rest2 =>
        if e = 'u' then
          match rest2 with
          | h1 :: h2 :: h3 :: h4 :: rest3 =>
            match hexVal h1, hexVal h2, hexVal h3, hexVal h4 with
            | some v1, some v2, some v3, some v4 =>
              match parseStringBody rest3 with
              | some (s, r) =>
                some (Char.ofNat (((v1 * 16 + v2) * 16 + v3) * 16 + v4) :: s, r)
              | none => none
            | _, _, _, _ => none
          | _ => none
        else
          match unescapeChar e with
          | some u =>
            match parseStringBody rest2 with
            | some (s, r) => some (u :: s, r)
            | none => none
          | none => none
    else
      match parseStringBody rest with
      | some (s, r) => some (c :: s, r)
      | none => none

/-- Consume a run of decimal digits into an accumulator, leaving the rest. -/
def parseNatAux (acc : Nat) : List Char → Nat × List Char
  | [] => (acc, [])
  | c :: rest =>
    match digitVal c with
    | some d => parseNatAux (acc * 10 + d) rest
    | none => (acc, c :: rest)

/-- Decode the continuation of a JSON integer array: either the closing
bracket or a comma followed by the next integer. -/
def parseNatListRest (l : List Char) : Option (List Nat × List Char) :=
  match l with
  | [] => none
  | c :: rest =>
    if c = ']' then some ([], rest)
    else if c = ',' then
      match parseNatListRest (parseNatAux 0 rest).2 with
      | some (ns, r) => some ((parseNatAux 0 rest).1 :: ns, r)
      | none => none
    else none
termination_by l.length
decreasing_by
  have hlen : ∀ (l2 : List Char) (acc : Nat), (parseNatAux acc l2).2.length ≤ l2.length := by
    intro l2
    induction l2 with
    | nil => intro acc; simp [parseNatAux]
    | cons d ds ih =>
      intro acc
      rw [parseNatAux]
      cases hd : digitVal d with
      | some v =>
        simp only [hd]
        exact le_trans (ih _) (Nat.le_succ _)
      | none => simp [hd]
  have := hlen rest 0
  simp
  omega

/-- Decode a JSON integer-array body after the opening bracket: empty array or
first integer followed by the array continuation. -/
def parseNatList (l : List Char) : Option (List Nat × List Char) :=
  match l with
  | [] => none
  | c :: rest =>
    if c = ']' then some ([], rest)
    else
      match parseNatListRest (parseNatAux 0 (c :: rest)).2 with
      | some (ns, r) => some ((parseNatAux 0 (c :: rest)).1 :: ns, r)
      | none => none

/-- Decode a JSON boolean. -/
def parseBool (l : List Char) : Option (Bool × List Char) :=
  match dropPrefixChars ("true".data) l with
  | some rest => some (true, rest)
  | none =>
    match dropPrefixChars ("false".data) l with
    | some rest => some (false, rest)
    | none => none

/-- Decode a canonical serialized payload back into a `FunctionData`. -/
def parseFunctionData (s : String) : Option FunctionData := do
  let l1 ← dropPrefixChars ("\x7b\"name\":\"".data) s.data
  let (nameChars, l2) ← parseStringBody l1
  let l3 ← dropPrefixChars (",\"argIndicies\":[".data) l2
  let (inds, l4) ← parseNatList l3
  let l5 ← dropPrefixChars (",\"retIsExternRef\":".data) l4
  let (ret, l6) ← parseBool l5
  let l7 ← dropPrefixChars ("\x7d".data) l6
  if l7 = [] then some ⟨⟨nameChars⟩, inds, ret⟩ else none

/-- The continuation shape of a serialized integer array: what follows the
first element — either the closing bracket or comma-separated further
elements — followed by the remaining input. -/
def natListTailChars (l : List Nat) (rest : List Char) : List Char :=
  match l with
  | [] => ']' :: rest
  | n :: l' => ',' :: (natToDec n ++ natListTailChars l' rest)

/-- The unique type recognized by `type_is_extern_ref`: the path type with no
leading colon and the single argument-free segment `ExternRef`. -/
def markerType : RustType := .path ⟨false, [⟨"ExternRef", false⟩]⟩

/-- The signature of `fn with_args(_: ExternRef, _: ExternRef) -> ExternRef`. -/
def withArgsSig : Signature :=
  ⟨"with_args", [.typed markerType, .typed markerType], .retTy markerType⟩

/-- A path that is a single unqualified argument-free identifier. -/
def identPath (s : String) : RPath := ⟨false, [⟨s, false⟩]⟩

/-- A meta item that carries a key other than `name`: a name-value pair whose
path resolves to a bare identifier different from `name`. -/
def hasOtherKey (m : NestedMeta) : Prop :=
  ∃ (p : RPath) (v : RustLit) (k : String),
    m = .meta (.nameValue p v) ∧ p.getIdent = some k ∧ k ≠ "name"

/-- Substring test on character lists, used to state what an error message
does not mention. -/
def containsSeq : List Char → List Char → Bool
  | needle, [] => needle.isEmpty
  | needle, c :: rest => needle.isPrefixOf (c :: rest) || containsSeq needle rest

/-! ## Helper lemmas -/

/-- `type_is_extern_ref` accepts exactly the single unqualified identifier
`ExternRef`; qualified paths, paths with arguments, and other type shapes
never match. -/
theorem type_is_extern_ref_iff (ty : RustType) :
    type_is_extern_ref ty = true ↔ ty = markerType := by
  cases ty with
  | other => simp [type_is_extern_ref, markerType]
  | path p =>
    obtain ⟨lc, segs⟩ := p
    cases lc with
    | true => simp [type_is_extern_ref, RPath.getIdent, markerType]
    | false =>
      match segs with
      | [] => simp [type_is_extern_ref, RPath.getIdent, markerType]
      | [⟨i, hargs⟩] =>
        cases hargs <;>
          simp [type_is_extern_ref, RPath.getIdent, markerType, beq_iff_eq]
      | s :: s' :: rest => simp [type_is_extern_ref, RPath.getIdent, markerType]

/-- With directly supplied options, `FunctionData::parse` always succeeds and
returns the record built from the signature and the options. -/
theorem FunctionData.parse_options_eq (sig : Signature) (opts : ExternRefOptions) :
    FunctionData.parse sig (.options opts) =
      .ok { name := opts.name.getD sig.ident,
            arg_indicies := sig.inputs.enum.filterMap markedArgFilter,
            ret_is_extern_ref :=
              match sig.output with
              | .retTy t => type_is_extern_ref t
              | .default => false } := rfl

/-! ## Claims about the emitter output -/

/-- C2: serializing the `FunctionData` with name `Example`, argument indices
`[0, 1]` and no marked return yields exactly the canonical 61-byte JSON
object. -/
theorem c2_canonical_payload :
    (FunctionData.to_data_section_token_stream ⟨"Example", [0, 1], false⟩ none).payload =
        "\x7b\"name\":\"Example\",\"argIndicies\":[0,1],\"retIsExternRef\":false\x7d".data ∧
      (FunctionData.to_data_section_token_stream ⟨"Example", [0, 1], false⟩ none).length = 61 := by
  exact ⟨by decide, by decide⟩

/-- C3 counterexample: the payload for `with_args` is not 60 bytes long (it is
62 bytes: the claimed 60 is an arithmetic slip, as the example string in the
spec itself has 62 characters). -/
theorem c3_counterexample :
    ¬ (FunctionData.to_data_section_token_stream ⟨"with_args", [0, 1], true⟩ none).length = 60 := by
  decide

/-- C3 (amended): the pipeline on `fn with_args(_: ExternRef, _: ExternRef) ->
ExternRef` with no options yields metadata name `with_args`, marked positions
`[0, 1]`, marked return, the canonical JSON payload of 62 bytes, and the
identifier `__extern_ref_data_with_args`. -/
theorem c3_with_args_end_to_end :
    FunctionData.parse withArgsSig (.options ExternRefOptions.default) =
        .ok ⟨"with_args", [0, 1], true⟩ ∧
      (FunctionData.to_data_section_token_stream ⟨"with_args", [0, 1], true⟩ none).payload =
        "\x7b\"name\":\"with_args\",\"argIndicies\":[0,1],\"retIsExternRef\":true\x7d".data ∧
      (FunctionData.to_data_section_token_stream ⟨"with_args", [0, 1], true⟩ none).length = 62 ∧
      (FunctionData.to_data_section_token_stream ⟨"with_args", [0, 1], true⟩ none).identifier =
        "__extern_ref_data_with_args" := by
  exact ⟨rfl, by decide, by decide, rfl⟩

/-! ## Claim C1: identifier construction -/

/-- Injectivity of `sectionName` in the name for a fixed group. -/
theorem sectionName_name_inj (g : Option String) (n n' : String)
    (h : sectionName g n = sectionName g n') : n = n' := by
  cases g with
  | none =>
    have h1 := congrArg String.data h
    simp only [sectionName, String.data_append] at h1
    exact String.ext (List.append_cancel_left h1)
  | some m =>
    have h1 := congrArg String.data h
    simp only [sectionName, String.data_append, List.append_assoc] at h1
    exact String.ext
      (List.append_cancel_left (List.append_cancel_left (List.append_cancel_left h1)))

/-- Injectivity of `sectionName` in the group for a fixed name. -/
theorem sectionName_group_inj (g g' : Option String) (n : String)
    (h : sectionName g n = sectionName g' n) : g = g' := by
  cases g with
  | none =>
    cases g' with
    | none => rfl
    | some m' =>
      have h1 := congrArg String.length h
      have hu : ("_" : String).length = 1 := rfl
      simp only [sectionName, String.length_append, hu] at h1
      omega
  | some m =>
    cases g' with
    | none =>
      have h1 := congrArg String.length h
      have hu : ("_" : String).length = 1 := rfl
      simp only [sectionName, String.length_append, hu] at h1
      omega
    | some m' =>
      have h1 := congrArg String.data h
      simp only [sectionName, String.data_append] at h1
      have h2 := List.append_cancel_left
        (List.append_cancel_right (List.append_cancel_right h1))
      exact congrArg some (String.ext h2)

/-- C1 counterexample: the ungrouped site named `a_b` and the site named `b`
in group `a` are distinct declaration sites whose computed identifiers
coincide, so identifier construction is not injective over all distinct
(group, name) pairs. -/
theorem c1_counterexample :
    (FunctionData.to_data_section_token_stream ⟨"a_b", [], false⟩ none).identifier =
        (FunctionData.to_data_section_token_stream ⟨"b", [], false⟩ (some ("a"))).identifier ∧
      ¬ ((none : Option String) = some ("a") ∧ "a_b" = "b") := by
  exact ⟨rfl, by decide⟩

/-- C1 (amended): identifiers differ for any two declaration sites whose
(group, name) pairs differ in exactly one component — same group (including
both ungrouped) with different names, or same name with different groups.
Full injectivity over arbitrary distinct pairs fails, since the underscore
separator also occurs inside names. -/
theorem c1_identifier_injective (g g' : Option String) (fd fd' : FunctionData)
    (h : (g = g' ∧ fd.name ≠ fd'.name) ∨ (g ≠ g' ∧ fd.name = fd'.name)) :
    (fd.to_data_section_token_stream g).identifier ≠
      (fd'.to_data_section_token_stream g').identifier := by
  intro heq
  have hsec : sectionName g fd.name = sectionName g' fd'.name := heq
  rcases h with ⟨hg, hn⟩ | ⟨hg, hn⟩
  · subst hg
    exact hn (sectionName_name_inj g _ _ hsec)
  · rw [hn] at hsec
    exact hg (sectionName_group_inj g g' _ hsec)

/-- C1 witness: two concrete sites in the same group with different names get
different identifiers. -/
theorem c1_witness :
    (FunctionData.to_data_section_token_stream ⟨"log", [], false⟩ (some ("console"))).identifier ≠
      (FunctionData.to_data_section_token_stream ⟨"warn", [], false⟩ (some ("console"))).identifier :=
  c1_identifier_injective (some ("console")) (some ("console")) ⟨"log", [], false⟩ ⟨"warn", [], false⟩
    (Or.inl ⟨rfl, by decide⟩)

/-! ## Claims C4 and C6: name and return-type resolution -/

/-- C4: the metadata name is the option override when present and the
signature's own identifier otherwise. -/
theorem c4_name_resolution (sig : Signature) (opts : ExternRefOptions) (fd : FunctionData)
    (h : FunctionData.parse sig (.options opts) = .ok fd) :
    fd.name = match opts.name with
              | some n => n
              | none => sig.ident := by
  rw [FunctionData.parse_options_eq] at h
  cases h
  cases opts.name <;> rfl

/-- C4 witness: a function named `no_args_or_ret` with the override
`name = "custom"` resolves to `custom`. -/
theorem c4_witness : (FunctionData.mk ("custom") [] false).name = "custom" :=
  c4_name_resolution ⟨"no_args_or_ret", [], .default⟩ ⟨some ("custom")⟩
    ⟨"custom", [], false⟩ rfl

/-- C6: the marked-return flag is true exactly when the signature declares a
return type and that type is the single unqualified `ExternRef` identifier; a
function with no declared return type always gets `false`. -/
theorem c6_marked_return (sig : Signature) (opts : ExternRefOptions) (fd : FunctionData)
    (h : FunctionData.parse sig (.options opts) = .ok fd) :
    fd.ret_is_extern_ref = true ↔ sig.output = .retTy markerType := by
  rw [FunctionData.parse_options_eq] at h
  cases h
  cases sig.output with
  | default => simp
  | retTy t => simp [type_is_extern_ref_iff]

/-- C6 witness: a function with no declared return type has an unmarked
return, confirmed on a concrete signature. -/
theorem c6_witness :
    (FunctionData.mk ("no_args_or_ret") [] false).ret_is_extern_ref = true ↔
      (Signature.mk ("no_args_or_ret") [] .default).output = .retTy markerType :=
  c6_marked_return ⟨"no_args_or_ret", [], .default⟩ ExternRefOptions.default
    ⟨"no_args_or_ret", [], false⟩ rfl

/-! ## Claim C5: marked argument positions -/

/-- The filter keeps exactly the pairs of an index with a marker-typed
argument, returning that index. -/
theorem markedArgFilter_eq_some (p : Nat × FnArg) (i : Nat) :
    markedArgFilter p = some i ↔ p = (i, FnArg.typed markerType) := by
  obtain ⟨j, a⟩ := p
  cases a with
  | receiver => simp [markedArgFilter]
  | typed ty =>
    by_cases hm : type_is_extern_ref ty
    · obtain rfl : ty = markerType := (type_is_extern_ref_iff ty).mp hm
      simp [markedArgFilter, hm, eq_comm]
    · have hne : ty ≠ markerType := fun hc => hm ((type_is_extern_ref_iff ty).mpr hc)
      simp [markedArgFilter, hm, hne]

/-- Membership in the collected indices characterizes exactly the positions
whose declared type is the single unqualified `ExternRef` identifier. -/
theorem mem_marked_indices (l : List FnArg) (i : Nat) :
    i ∈ l.enum.filterMap markedArgFilter ↔ l.get? i = some (FnArg.typed markerType) := by
  rw [List.mem_filterMap]
  constructor
  · rintro ⟨p, hp, hf⟩
    rw [markedArgFilter_eq_some] at hf
    subst hf
    simpa using List.mem_enum_iff_getElem?.mp hp
  · intro h
    refine ⟨(i, .typed markerType), List.mem_enum_iff_getElem?.mpr ?_, ?_⟩
    · simpa using h
    · exact (markedArgFilter_eq_some _ _).mpr rfl

/-- Every index collected from an enumeration starting at `k` is at least
`k`. -/
theorem marked_indices_lb (l : List FnArg) :
    ∀ (k i : Nat), i ∈ (List.enumFrom k l).filterMap markedArgFilter → k ≤ i := by
  induction l with
  | nil => simp [List.enumFrom]
  | cons a l ih =>
    intro k i h
    rw [List.enumFrom_cons, List.filterMap_cons] at h
    cases hfa : markedArgFilter (k, a) with
    | none =>
      rw [hfa] at h
      exact le_trans (Nat.le_succ k) (ih (k + 1) i h)
    | some j =>
      rw [hfa] at h
      have hj : k = j := by
        rw [markedArgFilter_eq_some] at hfa
        exact (Prod.mk.injEq _ _ _ _).mp hfa |>.1
      rcases List.mem_cons.mp h with rfl | hmem
      · omega
      · exact le_trans (Nat.le_succ k) (ih (k + 1) i hmem)

/-- The collected indices are strictly increasing. -/
theorem marked_indices_chain (l : List FnArg) :
    ∀ k : Nat, ((List.enumFrom k l).filterMap markedArgFilter).Pairwise (· < ·) := by
  induction l with
  | nil => simp [List.enumFrom]
  | cons a l ih =>
    intro k
    rw [List.enumFrom_cons, List.filterMap_cons]
    cases hfa : markedArgFilter (k, a) with
    | none => exact ih (k + 1)
    | some j =>
      have hj : k = j := by
        rw [markedArgFilter_eq_some] at hfa
        exact (Prod.mk.injEq _ _ _ _).mp hfa |>.1
      subst hj
      rw [List.pairwise_cons]
      exact ⟨fun i hi => Nat.lt_of_lt_of_le (Nat.lt_succ_self k) (marked_indices_lb l (k + 1) i hi),
        ih (k + 1)⟩

/-- C5: the marked argument positions are exactly the zero-based indices, in
declaration order, of the parameters whose declared type is the single
unqualified marker identifier, and the resulting list is strictly increasing
and duplicate-free. -/
theorem c5_marked_positions (sig : Signature) (opts : ExternRefOptions) (fd : FunctionData)
    (h : FunctionData.parse sig (.options opts) = .ok fd) :
    (∀ i, i ∈ fd.arg_indicies ↔ sig.inputs.get? i = some (FnArg.typed markerType)) ∧
      fd.arg_indicies.Pairwise (· < ·) ∧ fd.arg_indicies.Nodup := by
  rw [FunctionData.parse_options_eq] at h
  cases h
  refine ⟨fun i => mem_marked_indices sig.inputs i, marked_indices_chain sig.inputs 0, ?_⟩
  exact (marked_indices_chain sig.inputs 0).imp Nat.ne_of_lt

/-- C5 witness: in `with_args`, position 1 is collected because its declared
type is the bare `ExternRef` identifier. -/
theorem c5_witness :
    1 ∈ (FunctionData.mk ("with_args") [0, 1] true).arg_indicies ↔
      withArgsSig.inputs.get? 1 = some (FnArg.typed markerType) :=
  (c5_marked_positions withArgsSig ExternRefOptions.default ⟨"with_args", [0, 1], true⟩ rfl).1 1

/-! ## Claims C8 and C10: option resolution entry points -/

/-- Attribute search returns the default options when no attribute path is the
`externref` identifier. -/
theorem findExternrefOpts_no_match :
    ∀ attrs : List Attribute, (∀ a ∈ attrs, a.path.getIdent ≠ some ("externref")) →
      findExternrefOpts attrs = .ok ExternRefOptions.default := by
  intro attrs
  induction attrs with
  | nil => intro _; rfl
  | cons a rest ih =>
    intro h
    have ha : a.path.getIdent ≠ some ("externref") := h a (List.mem_cons_self a rest)
    rw [findExternrefOpts]
    cases hga : a.path.getIdent with
    | none => exact ih fun b hb => h b (List.mem_cons_of_mem a hb)
    | some i =>
      have hi : i ≠ "externref" := fun hc => ha (by rw [hga, hc])
      simp only [hga]
      rw [if_neg hi]
      exact ih fun b hb => h b (List.mem_cons_of_mem a hb)

/-- C8: the two entry points of `FunctionData::parse` agree once the options
are resolved — whenever the attribute list resolves to options `o`, parsing
from the attributes equals parsing from `o` directly; and with no matching
attribute the attribute list resolves to the default options. -/
theorem c8_entry_points_agree (sig : Signature) (attrs : List Attribute) :
    (∀ o : ExternRefOptions,
        AttributesOrOptions.tryIntoOptions (.attributes attrs) = .ok o →
        FunctionData.parse sig (.attributes attrs) = FunctionData.parse sig (.options o)) ∧
      ((∀ a ∈ attrs, a.path.getIdent ≠ some ("externref")) →
        AttributesOrOptions.tryIntoOptions (.attributes attrs) = .ok ExternRefOptions.default) := by
  constructor
  · intro o ho
    unfold FunctionData.parse
    rw [ho]
    rfl
  · exact findExternrefOpts_no_match attrs

/-- C8 witness: a concrete attribute list carrying `name = "custom"` parses
exactly like the directly supplied options value. -/
theorem c8_witness :
    FunctionData.parse ⟨"name", [], .default⟩
        (.attributes [⟨identPath ("externref"),
          .ok [.meta (.nameValue (identPath ("name")) (.str ("custom")))]⟩]) =
      FunctionData.parse ⟨"name", [], .default⟩ (.options ⟨some ("custom")⟩) :=
  (c8_entry_points_agree ⟨"name", [], .default⟩
    [⟨identPath ("externref"), .ok [.meta (.nameValue (identPath ("name")) (.str ("custom")))]⟩]).1
    ⟨some ("custom")⟩ rfl

/-- C10: when several attributes have the recognized `externref` identifier,
option resolution is decided by the first one in list order — the result only
depends on that attribute's argument list, never on later attributes. -/
theorem c10_first_attribute_wins (a : Attribute) (post : List Attribute)
    (h2 : a.path.getIdent = some ("externref")) :
    ∀ front : List Attribute, (∀ b ∈ front, b.path.getIdent ≠ some ("externref")) →
      AttributesOrOptions.tryIntoOptions (.attributes (front ++ a :: post)) =
        match a.args with
        | .ok list => ExternRefOptions.parse list
        | .error e => .error e := by
  intro front
  induction front with
  | nil =>
    intro _
    show findExternrefOpts (a :: post) = _
    rw [findExternrefOpts]
    simp only [h2]
    rw [if_pos trivial]
  | cons b rest ih =>
    intro h1
    have hb : b.path.getIdent ≠ some ("externref") := h1 b (List.mem_cons_self b rest)
    show findExternrefOpts (b :: (rest ++ a :: post)) = _
    rw [findExternrefOpts]
    cases hgb : b.path.getIdent with
    | none => exact ih fun x hx => h1 x (List.mem_cons_of_mem b hx)
    | some i =>
      have hi : i ≠ "externref" := fun hc => hb (by rw [hgb, hc])
      simp only [hgb]
      rw [if_neg hi]
      exact ih fun x hx => h1 x (List.mem_cons_of_mem b hx)

/-- C10 witness: with a non-matching attribute first and two matching ones
after it, the resolved options come from the first matching attribute (value
`first`), not the later one (value `second`). -/
theorem c10_witness :
    AttributesOrOptions.tryIntoOptions (.attributes
        [⟨identPath ("inline"), .ok []⟩,
         ⟨identPath ("externref"), .ok [.meta (.nameValue (identPath ("name")) (.str ("first")))]⟩,
         ⟨identPath ("externref"), .ok [.meta (.nameValue (identPath ("name")) (.str ("second")))]⟩]) =
      .ok ⟨some ("first")⟩ :=
  c10_first_attribute_wins
    ⟨identPath ("externref"), .ok [.meta (.nameValue (identPath ("name")) (.str ("first")))]⟩
    [⟨identPath ("externref"), .ok [.meta (.nameValue (identPath ("name")) (.str ("second")))]⟩]
    rfl
    [⟨identPath ("inline"), .ok []⟩]
    (by decide)

/-! ## Claim C7: rejection of unrecognized option keys -/

/-- Option parsing fails, from any accumulated options, as soon as the meta
list contains a key other than `name`. -/
theorem parseFrom_error_of_other_key :
    ∀ (metas : List NestedMeta) (opts : ExternRefOptions),
      (∃ m ∈ metas, hasOtherKey m) →
      ∃ e, ExternRefOptions.parseFrom opts metas = .error e := by
  intro metas
  induction metas with
  | nil => intro opts h; simp at h
  | cons m rest ih =>
    intro opts h
    match m with
    | .meta (.path p) => exact ⟨_, rfl⟩
    | .meta (.list p) => exact ⟨_, rfl⟩
    | .lit l => exact ⟨_, rfl⟩
    | .meta (.nameValue p l) =>
      cases hg : p.getIdent with
      | none => exact ⟨_, by rw [ExternRefOptions.parseFrom, hg]⟩
      | some nm =>
        match l with
        | .other => exact ⟨_, by rw [ExternRefOptions.parseFrom, hg]⟩
        | .str v =>
          by_cases hnm : nm = "name"
          · subst hnm
            have hrest : ∃ m' ∈ rest, hasOtherKey m' := by
              rcases h with ⟨m', hm', hkey⟩
              rcases List.mem_cons.mp hm' with rfl | hmem
              · rcases hkey with ⟨p', v', k', hshape, hid, hk⟩
                cases hshape
                rw [hg] at hid
                cases hid
                exact absurd rfl hk
              · exact ⟨m', hmem, hkey⟩
            obtain ⟨e, he⟩ := ih ⟨some v⟩ hrest
            exact ⟨e, by rw [ExternRefOptions.parseFrom, hg]; simpa using he⟩
          · exact ⟨"Invalid option " ++ nm, by
              rw [ExternRefOptions.parseFrom, hg]
              simp [hnm]⟩

/-- When every entry before the offending pair is a well-formed `name` option
and the offending pair's value is a string literal, the parse error names the
offending key. -/
theorem parseFrom_names_first_bad_key :
    ∀ (front : List NestedMeta) (opts : ExternRefOptions) (k v : String)
      (rest : List NestedMeta),
      (∀ m ∈ front, ∃ w, m = NestedMeta.meta (.nameValue (identPath ("name")) (.str w))) →
      k ≠ "name" →
      ExternRefOptions.parseFrom opts
          (front ++ NestedMeta.meta (.nameValue (identPath k) (.str v)) :: rest) =
        .error ("Invalid option " ++ k) := by
  intro front
  induction front with
  | nil =>
    intro opts k v rest _ hk
    rw [List.nil_append, ExternRefOptions.parseFrom]
    simp [RPath.getIdent, identPath, hk]
  | cons m front' ih =>
    intro opts k v rest hfront hk
    obtain ⟨w, rfl⟩ := hfront m (List.mem_cons_self m front')
    rw [List.cons_append, ExternRefOptions.parseFrom]
    simp only [RPath.getIdent, identPath, if_neg Bool.false_ne_true]
    exact ih ⟨some w⟩ k v rest (fun x hx => hfront x (List.mem_cons_of_mem _ hx)) hk

/-- C7 counterexample: a collection whose only entry pairs the key `bogus`
with a non-string literal fails with the literal-kind error, which does not
mention `bogus` — so the error does not always name the offending key. -/
theorem c7_counterexample :
    ExternRefOptions.parse [.meta (.nameValue (identPath ("bogus")) RustLit.other)] =
        .error ("Only string literals are valid for externref options") ∧
      containsSeq ("bogus".data)
        "Only string literals are valid for externref options".data = false := by
  exact ⟨rfl, by decide⟩

/-- C7 (amended): option parsing fails for every input collection containing
a key other than `name`, and the macro expansion then produces no data block;
the error names the offending key whenever the offending pair's value is a
string literal and the entries before it are well-formed `name` options. -/
theorem c7_bad_key_rejected (sig : Signature) (metas : List NestedMeta)
    (h : ∃ m ∈ metas, hasOtherKey m) :
    (∃ e, ExternRefOptions.parse metas = .error e) ∧
      (∃ e, externref_entry metas sig = .error e) ∧
      (∀ (front : List NestedMeta) (k v : String) (rest : List NestedMeta),
        metas = front ++ NestedMeta.meta (.nameValue (identPath k) (.str v)) :: rest →
        (∀ m ∈ front, ∃ w, m = NestedMeta.meta (.nameValue (identPath ("name")) (.str w))) →
        k ≠ "name" →
        ExternRefOptions.parse metas = .error ("Invalid option " ++ k)) := by
  obtain ⟨e, he⟩ := parseFrom_error_of_other_key metas ExternRefOptions.default h
  refine ⟨⟨e, he⟩, ⟨e, ?_⟩, ?_⟩
  · unfold externref_entry
    show Except.bind (ExternRefOptions.parse metas) _ = _
    rw [ExternRefOptions.parse] at *
    rw [he]
    rfl
  · intro front k v rest hsplit hfront hk
    rw [hsplit]
    exact parseFrom_names_first_bad_key front ExternRefOptions.default k v rest hfront hk

/-- C7 witness: the singleton collection with key `bogus` and a string value
fails with the error naming `bogus`, hence no block is emitted. -/
theorem c7_witness :
    ExternRefOptions.parse [.meta (.nameValue (identPath ("bogus")) (.str ("x")))] =
      .error ("Invalid option " ++ "bogus") :=
  (c7_bad_key_rejected ⟨"f", [], .default⟩
      [.meta (.nameValue (identPath ("bogus")) (.str ("x")))]
      ⟨.meta (.nameValue (identPath ("bogus")) (.str ("x"))), List.mem_singleton.mpr rfl,
        identPath ("bogus"), .str ("x"), "bogus", rfl, rfl, by decide⟩).2.2
    [] "bogus" "x" [] rfl (by simp) (by decide)

/-! ## Round-trip lemmas for the decoder -/

/-- Dropping a chunk from an input that starts with it leaves the rest. -/
theorem dropPrefixChars_self : ∀ (p rest : List Char), dropPrefixChars p (p ++ rest) = some rest := by
  intro p
  induction p with
  | nil => intro rest; rfl
  | cons c ps ih =>
    intro rest
    show dropPrefixChars (c :: ps) (c :: (ps ++ rest)) = some rest
    rw [dropPrefixChars, if_pos rfl]
    exact ih rest

/-- Reading back a hexadecimal digit character recovers its value. -/
theorem hexVal_hexChar (k : Nat) (h : k < 16) : hexVal (hexChar k) = some k := by
  interval_cases k <;> rfl

/-- Reading back a decimal digit character recovers its value. -/
theorem digitVal_digitChar (k : Nat) (h : k < 10) : digitVal (digitChar k) = some k := by
  interval_cases k <;> rfl

/-- A decimal digit character is not a closing bracket. -/
theorem digitChar_ne_rbracket (k : Nat) (h : k < 10) : digitChar k ≠ ']' := by
  interval_cases k <;> decide

/-- The decimal rendering does not depend on the fuel, as long as the fuel
exceeds the number. -/
theorem natToDecAux_fuel : ∀ (f1 f2 n : Nat), n < f1 → n < f2 →
    natToDecAux f1 n = natToDecAux f2 n := by
  intro f1
  induction f1 with
  | zero => intro f2 n h1; omega
  | succ g1 ih =>
    intro f2 n h1 h2
    match f2 with
    | 0 => omega
    | g2 + 1 =>
      rw [natToDecAux, natToDecAux]
      by_cases h10 : n < 10
      · rw [if_pos h10, if_pos h10]
      · rw [if_neg h10, if_neg h10]
        have hdiv : n / 10 < n := Nat.div_lt_self (by omega) (by omega)
        rw [ih g2 (n / 10) (by omega) (by omega)]

/-- Consuming the decimal rendering of `n` multiplies the accumulator by the
corresponding power of ten and adds `n`. -/
theorem parseNatAux_natToDecAux : ∀ (f n acc : Nat) (rest : List Char), n < f →
    parseNatAux acc (natToDecAux f n ++ rest) =
      parseNatAux (acc * 10 ^ (natToDecAux f n).length + n) rest := by
  intro f
  induction f with
  | zero => intro n acc rest h; omega
  | succ g ih =>
    intro n acc rest h
    rw [natToDecAux]
    by_cases h10 : n < 10
    · rw [if_pos h10]
      rw [List.singleton_append, parseNatAux]
      simp only [digitVal_digitChar n h10]
      norm_num
    · rw [if_neg h10]
      have hdiv : n / 10 < n := Nat.div_lt_self (by omega) (by omega)
      rw [List.append_assoc]
      rw [ih (n / 10) acc ([digitChar (n % 10)] ++ rest) (by omega)]
      rw [List.singleton_append, parseNatAux]
      simp only [digitVal_digitChar (n % 10) (Nat.mod_lt n (by omega))]
      congr 1
      simp only [List.length_append, List.length_singleton]
      rw [pow_succ, ← Nat.mul_assoc]
      set m := acc * 10 ^ (natToDecAux g (n / 10)).length with hm
      omega

/-- The digit run stops at a non-digit character. -/
theorem parseNatAux_stop (acc : Nat) (c : Char) (rest : List Char) (h : digitVal c = none) :
    parseNatAux acc (c :: rest) = (acc, c :: rest) := by
  rw [parseNatAux, h]

/-- Consuming the decimal rendering of `n` before a non-digit recovers `n`. -/
theorem parseNatAux_natToDec (n : Nat) (c : Char) (rest : List Char)
    (hc : digitVal c = none) :
    parseNatAux 0 (natToDec n ++ c :: rest) = (n, c :: rest) := by
  rw [natToDec, parseNatAux_natToDecAux (n + 1) n 0 _ (Nat.lt_succ_self n)]
  rw [parseNatAux_stop _ c rest hc]
  simp

/-- The decimal rendering starts with a digit character. -/
theorem natToDecAux_head : ∀ (f n : Nat), n < f →
    ∃ (k : Nat) (tl : List Char), k < 10 ∧ natToDecAux f n = digitChar k :: tl := by
  intro f
  induction f with
  | zero => intro n h; omega
  | succ g ih =>
    intro n h
    rw [natToDecAux]
    by_cases h10 : n < 10
    · exact ⟨n, [], h10, by rw [if_pos h10]⟩
    · have hdiv : n / 10 < n := Nat.div_lt_self (by omega) (by omega)
      obtain ⟨k, tl, hk, heq⟩ := ih (n / 10) (by omega)
      exact ⟨k, tl ++ [digitChar (n % 10)], hk, by rw [if_neg h10, heq]; rfl⟩

/-- The decimal rendering of any number starts with a digit character. -/
theorem natToDec_head (n : Nat) :
    ∃ (k : Nat) (tl : List Char), k < 10 ∧ natToDec n = digitChar k :: tl := by
  rw [natToDec]
  exact natToDecAux_head (n + 1) n (Nat.lt_succ_self n)

/-- Decoding inverts escaping: the escaped body followed by the closing quote
decodes to the original characters and the remaining input. -/
theorem parseStringBody_escape : ∀ (s rest : List Char),
    parseStringBody (escapeChars s ++ '"' :: rest) = some (s, rest) := by
  intro s
  induction s with
  | nil =>
    intro rest
    show parseStringBody ('"' :: rest) = some ([], rest)
    rw [parseStringBody.eq_def]
    simp
  | cons c s' ih =>
    intro rest
    show parseStringBody ((escapeChar c ++ escapeChars s') ++ '"' :: rest) = some (c :: s', rest)
    rw [List.append_assoc]
    by_cases h1 : c = '"'
    · subst h1
      have he : escapeChar '"' = ['\\', '"'] := rfl
      rw [he, parseStringBody.eq_def]
      simp +decide [unescapeChar, ih]
    · by_cases h2 : c = '\\'
      · subst h2
        have he : escapeChar '\\' = ['\\', '\\'] := rfl
        rw [he, parseStringBody.eq_def]
        simp +decide [unescapeChar, ih]
      · by_cases h3 : c.toNat = 8
        · have he : escapeChar c = ['\\', 'b'] := by
            rw [escapeChar, if_neg h1, if_neg h2, if_pos h3]
          have hc : Char.ofNat 8 = c := by rw [← h3, Char.ofNat_toNat]
          rw [he, parseStringBody.eq_def]
          simp +decide [unescapeChar, ih, hc]
          exact hc
        · by_cases h4 : c.toNat = 9
          · have he : escapeChar c = ['\\', 't'] := by
              rw [escapeChar, if_neg h1, if_neg h2, if_neg h3, if_pos h4]
            have hc : Char.ofNat 9 = c := by rw [← h4, Char.ofNat_toNat]
            rw [he, parseStringBody.eq_def]
            simp +decide [unescapeChar, ih, hc]
            exact hc
          · by_cases h5 : c.toNat = 10
            · have he : escapeChar c = ['\\', 'n'] := by
                rw [escapeChar, if_neg h1, if_neg h2, if_neg h3, if_neg h4, if_pos h5]
              have hc : Char.ofNat 10 = c := by rw [← h5, Char.ofNat_toNat]
              rw [he, parseStringBody.eq_def]
              simp +decide [unescapeChar, ih, hc]
              exact hc
            · by_cases h6 : c.toNat = 12
              · have he : escapeChar c = ['\\', 'f'] := by
                  rw [escapeChar, if_neg h1, if_neg h2, if_neg h3, if_neg h4, if_neg h5,
                    if_pos h6]
                have hc : Char.ofNat 12 = c := by rw [← h6, Char.ofNat_toNat]
                rw [he, parseStringBody.eq_def]
                simp +decide [unescapeChar, ih, hc]
                exact hc
              · by_cases h7 : c.toNat = 13
                · have he : escapeChar c = ['\\', 'r'] := by
                    rw [escapeChar, if_neg h1, if_neg h2, if_neg h3, if_neg h4, if_neg h5,
                      if_neg h6, if_pos h7]
                  have hc : Char.ofNat 13 = c := by rw [← h7, Char.ofNat_toNat]
                  rw [he, parseStringBody.eq_def]
                  simp +decide [unescapeChar, ih, hc]
                  exact hc
                · by_cases h8 : c.toNat < 32
                  · have he : escapeChar c =
                        ['\\', 'u', '0', '0', hexChar (c.toNat / 16), hexChar (c.toNat % 16)] := by
                      rw [escapeChar, if_neg h1, if_neg h2, if_neg h3, if_neg h4, if_neg h5,
                        if_neg h6, if_neg h7, if_pos h8]
                    have hv1 : hexVal (hexChar (c.toNat / 16)) = some (c.toNat / 16) :=
                      hexVal_hexChar _ (by omega)
                    have hv2 : hexVal (hexChar (c.toNat % 16)) = some (c.toNat % 16) :=
                      hexVal_hexChar _ (by omega)
                    have hz : hexVal '0' = some 0 := rfl
                    have hm : ((0 * 16 + 0) * 16 + c.toNat / 16) * 16 + c.toNat % 16 = c.toNat := by
                      omega
                    have hm2 : c.toNat / 16 * 16 + c.toNat % 16 = c.toNat := by omega
                    rw [he, parseStringBody.eq_def]
                    simp +decide [hz, hv1, hv2, ih, hm, hm2, Char.ofNat_toNat]
                  · have he : escapeChar c = [c] := by
                      rw [escapeChar, if_neg h1, if_neg h2, if_neg h3, if_neg h4, if_neg h5,
                        if_neg h6, if_neg h7, if_neg h8]
                    rw [he, List.singleton_append, parseStringBody.eq_def]
                    simp [h1, h2, ih]

/-- The serialized array body for a nonempty list splits into the first
element's digits and the continuation shape. -/
theorem natListChars_append : ∀ (l : List Nat) (n : Nat) (rest : List Char),
    natListChars (n :: l) ++ ']' :: rest = natToDec n ++ natListTailChars l rest := by
  intro l
  induction l with
  | nil => intro n rest; rfl
  | cons m l' ih =>
    intro n rest
    show (natToDec n ++ ',' :: natListChars (m :: l')) ++ ']' :: rest =
      natToDec n ++ ',' :: (natToDec m ++ natListTailChars l' rest)
    rw [List.append_assoc, List.cons_append, ih m rest]

/-- The continuation shape starts with a bracket or a comma, never a digit. -/
theorem natListTailChars_head (l : List Nat) (rest : List Char) :
    ∃ c tl, natListTailChars l rest = c :: tl ∧ digitVal c = none := by
  cases l with
  | nil => exact ⟨']', rest, rfl, by decide⟩
  | cons n l' => exact ⟨',', natToDec n ++ natListTailChars l' rest, rfl, by decide⟩

/-- Decoding the continuation shape recovers the remaining elements. -/
theorem parseNatListRest_tail : ∀ (l : List Nat) (rest : List Char),
    parseNatListRest (natListTailChars l rest) = some (l, rest) := by
  intro l
  induction l with
  | nil =>
    intro rest
    show parseNatListRest (']' :: rest) = some ([], rest)
    rw [parseNatListRest.eq_def]
    simp
  | cons n l' ih =>
    intro rest
    show parseNatListRest (',' :: (natToDec n ++ natListTailChars l' rest)) = some (n :: l', rest)
    obtain ⟨c, tl, hct, hdc⟩ := natListTailChars_head l' rest
    have hpa : parseNatAux 0 (natToDec n ++ natListTailChars l' rest) =
        (n, natListTailChars l' rest) := by
      rw [hct, parseNatAux_natToDec n c tl hdc, ← hct]
    rw [parseNatListRest.eq_def]
    simp +decide [hpa, ih]

/-- Decoding a serialized integer-array body recovers the list. -/
theorem parseNatList_chars (l : List Nat) (rest : List Char) :
    parseNatList (natListChars l ++ ']' :: rest) = some (l, rest) := by
  cases l with
  | nil =>
    show parseNatList (']' :: rest) = some ([], rest)
    rw [parseNatList.eq_def]
    simp
  | cons n l' =>
    rw [natListChars_append l' n rest]
    obtain ⟨k, tl, hk, hnd⟩ := natToDec_head n
    obtain ⟨c, tl2, hct, hdc⟩ := natListTailChars_head l' rest
    have hpa : parseNatAux 0 (natToDec n ++ natListTailChars l' rest) =
        (n, natListTailChars l' rest) := by
      rw [hct, parseNatAux_natToDec n c tl2 hdc, ← hct]
    have hne : digitChar k ≠ ']' := digitChar_ne_rbracket k hk
    rw [hnd, List.cons_append] at hpa ⊢
    rw [parseNatList.eq_def]
    simp [hne, hpa, parseNatListRest_tail l' rest]

/-- Decoding a serialized boolean recovers the flag. -/
theorem parseBool_chunk (b : Bool) (rest : List Char) :
    parseBool ((if b then ("true".data) else ("false".data)) ++ rest) = some (b, rest) := by
  cases b with
  | true =>
    show parseBool ("true".data ++ rest) = some (true, rest)
    unfold parseBool
    rw [dropPrefixChars_self]
  | false =>
    show parseBool ("false".data ++ rest) = some (false, rest)
    unfold parseBool
    have h1 : dropPrefixChars ("true".data) ("false".data ++ rest) = none := by
      show dropPrefixChars ('t' :: "rue".data) ('f' :: ("alse".data ++ rest)) = none
      rw [dropPrefixChars.eq_def]
      simp +decide
    rw [h1, dropPrefixChars_self]

/-- The empty chunk drops to the whole input. -/
theorem dropPrefixChars_nil (l : List Char) : dropPrefixChars [] l = some l := rfl

/-- Dropping strips equal head characters one at a time. -/
theorem dropPrefixChars_cons_same (a : Char) (ps cs : List Char) :
    dropPrefixChars (a :: ps) (a :: cs) = dropPrefixChars ps cs := by
  rw [dropPrefixChars.eq_def]
  simp

/-- Boolean decoding stated on the literal character chunks. -/
theorem parseBool_chunk_lists (b : Bool) (rest : List Char) :
    parseBool ((if b then ['t', 'r', 'u', 'e'] else ['f', 'a', 'l', 's', 'e']) ++ rest) =
      some (b, rest) :=
  parseBool_chunk b rest

/-- C9: serialization is deterministic — equal metadata values yield
byte-identical payloads — and decoding a serialized payload reconstructs the
original `FunctionData` field for field. -/
theorem c9_serialization_roundtrip (fd : FunctionData) :
    serializeFunctionData fd = serializeFunctionData fd ∧
      parseFunctionData (serializeFunctionData fd) = some fd := by
  refine ⟨rfl, ?_⟩
  obtain ⟨nm, inds, ret⟩ := fd
  show parseFunctionData ⟨serializeChars ⟨nm, inds, ret⟩⟩ = some ⟨nm, inds, ret⟩
  have hdata : (⟨serializeChars ⟨nm, inds, ret⟩⟩ : String).data =
      serializeChars ⟨nm, inds, ret⟩ := rfl
  have hq2 : "\",\"argIndicies\":[".data = '"' :: ",\"argIndicies\":[".data := rfl
  have hq3 : "],\"retIsExternRef\":".data = ']' :: ",\"retIsExternRef\":".data := rfl
  have h7 : dropPrefixChars ['\x7d'] ['\x7d'] = some ([] : List Char) := rfl
  unfold parseFunctionData
  rw [hdata]
  unfold serializeChars
  rw [hq2, hq3]
  simp only [List.cons_append]
  simp [dropPrefixChars_cons_same, dropPrefixChars_nil, parseStringBody_escape,
    parseNatList_chars, parseBool_chunk_lists, h7]
